import Mathlib

/-!
Verification development for the stub-generation engine in
`pybind11_stubgen/__init__.py`.

The Python source is shallowly embedded: each Lean definition mirrors one
Python function or method (names follow the source).  Python strings are
modelled as `String` / `List Char`; the handful of regular expressions in the
source are embedded as concrete, executable matchers implementing the
semantics of those specific patterns (leftmost scan, first-alternative,
greedy character-class runs); `re.sub` loops are written with an explicit
fuel argument equal to the input length, which bounds the number of scan
positions.  The one external oracle is CPython `ast.parse` used for
signature validation: it is a parameter `parse_ok` of the embedding, since
the code only branches on its verdict.  The global `USE_BOOST_PYTHON` flag
defaults to `False` and no claim involves the boost dialect, so the
embedding covers the default (non-boost) path of `FunctionSignature`.
-/

namespace PyStubgen

/-- Python regex word character class (ASCII): letters, digits, underscore. -/
def is_word_char (c : Char) : Bool :=
  (('a' ≤ c && c ≤ 'z') || ('A' ≤ c && c ≤ 'Z') || ('0' ≤ c && c ≤ '9') || c = '_')

/-- Python whitespace class (matches `str.strip` and regex backslash-s). -/
def is_py_space (c : Char) : Bool :=
  (c = ' ' || c = '\t' || c = '\n' || c = '\x0d' || c = '\x0b' || c = '\x0c')

/-- Hexadecimal digit, as in the address part of a pybind11 object repr. -/
def is_hex_char (c : Char) : Bool :=
  (('0' ≤ c && c ≤ '9') || ('a' ≤ c && c ≤ 'f') || ('A' ≤ c && c ≤ 'F'))

/-- Decimal digit. -/
def is_digit_char (c : Char) : Bool := ('0' ≤ c && c ≤ '9')

/-- Greedy run of characters satisfying `p`: returns (run, rest). -/
def take_run (p : Char → Bool) : List Char → List Char × List Char
  | [] => ([], [])
  | c :: cs =>
    if p c then
      let r := take_run p cs
      (c :: r.1, r.2)
    else ([], c :: cs)

/-- `str.strip()` on a character list. -/
def py_strip_list (cs : List Char) : List Char :=
  ((cs.dropWhile is_py_space).reverse.dropWhile is_py_space).reverse

/-- `str.strip()`. -/
def py_strip (s : String) : String := String.mk (py_strip_list s.data)

/-- `str.strip ("\n")`, used by `format_docstring`. -/
def strip_newlines (s : String) : String :=
  String.mk (((s.data.dropWhile (· = '\n')).reverse.dropWhile (· = '\n')).reverse)

/-- `str.rstrip ("\n")`, used by `sanitize_docstring`. -/
def rstrip_newlines (s : String) : String :=
  String.mk ((s.data.reverse.dropWhile (· = '\n')).reverse)

/-- Literal-prefix test on character lists. -/
def starts_with_lit : List Char → List Char → Bool
  | [], _ => true
  | _ :: _, [] => false
  | p :: ps, c :: cs => p = c && starts_with_lit ps cs

/-- Lexicographic (code-point) order on character lists: the order Python
uses to compare strings, hence the order of `sorted (..., key = args)`. -/
def list_char_le : List Char → List Char → Bool
  | [], _ => true
  | _ :: _, [] => false
  | a :: as, b :: bs => if a = b then list_char_le as bs else decide (a < b)

/-- Python string comparison, used as the sort key comparison. -/
def str_le (a b : String) : Bool := list_char_le a.data b.data

/-- Core loop of `str.split (sep)`: fuel, remaining text, current segment
reversed.  The separator is non-empty in every use, so fuel equal to the
input length suffices. -/
def split_on_aux (sep : List Char) : Nat → List Char → List Char → List (List Char)
  | 0, cs, cur => [cur.reverse ++ cs]
  | fuel + 1, cs, cur =>
    match cs with
    | [] => [cur.reverse]
    | c :: cs' =>
      if starts_with_lit sep cs then
        cur.reverse :: split_on_aux sep fuel (cs.drop sep.length) []
      else split_on_aux sep fuel cs' (c :: cur)

/-- Python `str.split` with an explicit non-empty separator. -/
def py_split (s : String) (sep : String) : List String :=
  (split_on_aux sep.data s.data.length s.data []).map String.mk

/-- Python `str.startswith`. -/
def py_startswith (s p : String) : Bool := starts_with_lit p.data s.data

/-!  ## FunctionSignature.split_arguments (source lines 177-197)

The method splits `self.args` at commas that are outside square brackets.
The Python loop keeps an integer bracket counter, asserts it never becomes
negative at a closing bracket and asserts it is zero at the end; an assertion
failure is modelled by `none`.  -/

/-- Core loop of `split_arguments`: remaining characters, bracket depth,
current segment (reversed).  `none` models a failed `assert`. -/
def split_arguments_core : List Char → Nat → List Char → Option (List (List Char))
  | [], 0, cur => some [cur.reverse]
  | [], _ + 1, _ => none
  | c :: cs, b, cur =>
    if c = '[' then split_arguments_core cs (b + 1) (c :: cur)
    else if c = ']' then
      match b with
      | 0 => none
      | b' + 1 => split_arguments_core cs b' (c :: cur)
    else if c = ',' && b = 0 then
      (split_arguments_core cs 0 []).map (fun segs => cur.reverse :: segs)
    else split_arguments_core cs b (c :: cur)

/-- `FunctionSignature.split_arguments`: empty (after strip) argument text
yields the empty list; otherwise split at bracket-top-level commas. -/
def split_arguments (args : String) : Option (List String) :=
  if (py_strip args).length = 0 then some []
  else (split_arguments_core args.data 0 []).map (fun segs => segs.map String.mk)

/-- Specification-side predicate: square brackets of the text are balanced
(the scan depth never goes negative and ends at zero). -/
def bracket_balanced_core : List Char → Nat → Bool
  | [], b => b = 0
  | c :: cs, b =>
    if c = '[' then bracket_balanced_core cs (b + 1)
    else if c = ']' then
      match b with
      | 0 => false
      | b' + 1 => bracket_balanced_core cs b'
    else bracket_balanced_core cs b

/-- Balanced square brackets, as in claim C10. -/
def bracket_balanced (s : String) : Bool := bracket_balanced_core s.data 0

/-- No comma occurs at square-bracket depth zero in the text. -/
def no_top_level_comma_core : List Char → Nat → Bool
  | [], _ => true
  | c :: cs, b =>
    if c = '[' then no_top_level_comma_core cs (b + 1)
    else if c = ']' then no_top_level_comma_core cs (b - 1)
    else if c = ',' && b = 0 then false
    else no_top_level_comma_core cs b

/-- A segment free of bracket-top-level commas. -/
def no_top_level_comma (s : String) : Bool := no_top_level_comma_core s.data 0

/-- Number of commas at square-bracket depth zero. -/
def count_top_level_commas_core : List Char → Nat → Nat
  | [], _ => 0
  | c :: cs, b =>
    if c = '[' then count_top_level_commas_core cs (b + 1)
    else if c = ']' then count_top_level_commas_core cs (b - 1)
    else if c = ',' && b = 0 then count_top_level_commas_core cs b + 1
    else count_top_level_commas_core cs b

/-- Number of split points claimed for `split_arguments`. -/
def count_top_level_commas (s : String) : Nat := count_top_level_commas_core s.data 0

/-- Square-bracket depth after scanning the text (with truncated
subtraction at stray closing brackets), used to state scan invariants. -/
def depth_scan : List Char → Nat → Nat
  | [], b => b
  | c :: cs, b =>
    if c = '[' then depth_scan cs (b + 1)
    else if c = ']' then depth_scan cs (b - 1)
    else depth_scan cs b

/-- Joining segments back with comma separators (claim C10's join). -/
def join_commas (segs : List String) : String :=
  String.mk (List.intercalate [','] (segs.map String.data))

/-!  ## `_default_pybind11_repr_re` and `replace_default_pybind11_repr`
(source lines 42-55)

The regex has two alternatives, tried in order at each scan position:
a class repr  `<path object at 0xHEX>`  (path = word chars joined by
literal dots) replaced by an ellipsis and recorded, and an enum repr
`<name(ANY wordrun)*: DIGITS>` (the dot in the enum path is an unescaped
regex dot, matching any character) replaced by the captured enum path and
not recorded.  -/

/-- Greedy `(\. wordrun)*` tail of the class-repr dotted path: returns
(consumed, rest).  `fuel` bounds the iterations (callers pass the input
length, which always suffices). -/
def dot_word_star : Nat → List Char → List Char × List Char
  | 0, cs => ([], cs)
  | fuel + 1, cs =>
    match cs with
    | [] => ([], [])
    | c :: rest =>
      if c = '.' then
        let wr := take_run is_word_char rest
        if wr.1.isEmpty then ([], c :: rest)
        else
          let p2 := dot_word_star fuel wr.2
          (c :: (wr.1 ++ p2.1), p2.2)
      else ([], c :: rest)

/-- Greedy `(ANY wordrun)*` tail of the enum path (the unescaped dot in the
source pattern matches any character except a newline). -/
def any_word_star : Nat → List Char → List Char × List Char
  | 0, cs => ([], cs)
  | fuel + 1, cs =>
    match cs with
    | c :: rest =>
      if c = '\n' then ([], cs)
      else
        let wr := take_run is_word_char rest
        if wr.1.isEmpty then ([], cs)
        else
          let p2 := any_word_star fuel wr.2
          (c :: (wr.1 ++ p2.1), p2.2)
    | [] => ([], [])

/-- First alternative of the repr regex:
`< wordrun (\. wordrun)* " object at 0x" hexrun >`.
Returns (whole matched text, rest). -/
def match_class_repr (cs : List Char) : Option (List Char × List Char) :=
  match cs with
  | '<' :: r0 =>
    let wr := take_run is_word_char r0
    if wr.1.isEmpty then none
    else
      let pr := dot_word_star r0.length wr.2
      let tag := " object at 0x".data
      if starts_with_lit tag pr.2 then
        let r1 := pr.2.drop tag.length
        let hx := take_run is_hex_char r1
        if hx.1.isEmpty then none
        else
          match hx.2 with
          | '>' :: r2 =>
            some ('<' :: (wr.1 ++ pr.1 ++ tag ++ hx.1 ++ ['>']), r2)
          | _ => none
      else none
  | _ => none

/-- Second alternative of the repr regex:
`< wordrun (ANY wordrun)* ": " digitrun >`.
Returns (captured enum path, rest). -/
def match_enum_repr (cs : List Char) : Option (List Char × List Char) :=
  match cs with
  | '<' :: r0 =>
    let wr := take_run is_word_char r0
    if wr.1.isEmpty then none
    else
      let pr := any_word_star r0.length wr.2
      match pr.2 with
      | ':' :: ' ' :: r1 =>
        let dg := take_run is_digit_char r1
        if dg.1.isEmpty then none
        else
          match dg.2 with
          | '>' :: r2 => some (wr.1 ++ pr.1, r2)
          | _ => none
      | _ => none
  | _ => none

/-- `re.sub` loop of `_default_pybind11_repr_re`: left-to-right scan, class
alternative tried before the enum alternative; collects the class-repr
texts (the `default_reprs` list of the source). -/
def repr_sub_aux : Nat → List Char → List (List Char) × List Char
  | 0, cs => ([], cs)
  | _ + 1, [] => ([], [])
  | fuel + 1, c :: cs =>
    match match_class_repr (c :: cs) with
    | some m =>
      let r := repr_sub_aux fuel m.2
      (m.1 :: r.1, "...".data ++ r.2)
    | none =>
      match match_enum_repr (c :: cs) with
      | some m =>
        let r := repr_sub_aux fuel m.2
        (r.1, m.1 ++ r.2)
      | none =>
        let r := repr_sub_aux fuel cs
        (r.1, c :: r.2)

/-- `replace_default_pybind11_repr` (source lines 46-55): returns the list
of recorded invalid class reprs and the rewritten line. -/
def replace_default_pybind11_repr (line : String) : List String × String :=
  let r := repr_sub_aux line.data.length line.data
  (r.1.map String.mk, String.mk r.2)

/-!  ## `replace_typing_types` and its regex (source lines 252-254, 266-267)

Pattern: lookbehind not-word, one of the alternatives
`Callable | Dict | [Ii]terator | [Ii]terable | List | Optional | Set |
Tuple | Union<apostrophe>`, lookahead not-word.  Replacement:
`typing.` + `str.capitalize` of the match.  Note that in the source the
last alternative really is `Union` followed by a literal apostrophe, and
that none of `list`, `optional`, `dict`, `set`, `tuple`, `union`,
`callable` appear in lower-case form.  -/

/-- The token `Union` followed by an apostrophe (character 39). -/
def union_apos_tok : List Char := "Union".data ++ [Char.ofNat 39]

/-- Alternatives of the typing regex, in alternation order (a character
class `[Ii]` is expanded into its two literal variants, which is
equivalent because only one of them can match at a given position). -/
def typing_tokens : List (List Char) :=
  ["Callable".data, "Dict".data, "Iterator".data, "iterator".data,
   "Iterable".data, "iterable".data, "List".data, "Optional".data,
   "Set".data, "Tuple".data, union_apos_tok]

/-- `str.capitalize`: first character upper-cased, the rest lower-cased. -/
def py_capitalize : List Char → List Char
  | [] => []
  | c :: cs => c.toUpper :: cs.map Char.toLower

/-- Try the alternatives in order at the current position; a token matches
when it is a literal head of the text and the following character (if any)
is not a word character (the lookahead).  Returns (token, rest). -/
def try_typing_token (cs : List Char) : Option (List Char × List Char) :=
  typing_tokens.findSome? (fun tok =>
    if starts_with_lit tok cs then
      let rest := cs.drop tok.length
      match rest with
      | [] => some (tok, rest)
      | c :: _ => if is_word_char c then none else some (tok, rest)
    else none)

/-- `re.sub` loop of the typing regex.  `prev` is the character of the
original text just before the current position (for the lookbehind). -/
def typing_sub_aux : Nat → Option Char → List Char → List Char
  | 0, _, cs => cs
  | _ + 1, _, [] => []
  | fuel + 1, prev, c :: cs =>
    let blocked := match prev with
      | some p => is_word_char p
      | none => false
    if blocked then c :: typing_sub_aux fuel (some c) cs
    else
      match try_typing_token (c :: cs) with
      | some m =>
        "typing.".data ++ py_capitalize m.1 ++
          typing_sub_aux fuel (some (m.1.getLastD 'x')) m.2
      | none => c :: typing_sub_aux fuel (some c) cs

/-- The whole-string substitution for the typing regex (the second entry of
`GLOBAL_CLASSNAME_REPLACEMENTS`). -/
def replace_typing_types_sub (s : String) : String :=
  String.mk (typing_sub_aux s.data.length none s.data)

/-!  ## `replace_numpy_array` and its regex (source lines 228-249, 264-265)

Pattern: `numpy` ANY `ndarray` `[` type-run `(` `[` shape-run `]` `)?`
extra-run `]` where type/shape/extra runs consist of non-square-bracket
characters (type and shape non-empty, extra possibly empty).  Replacement:
`numpy.ndarray` in bare mode; otherwise `numpy.ndarray[` type
(prefixed with `numpy.` when it is a recognized scalar kind) and, if a
shape was captured, `, _Shape[` shape `]`, then `]`; the extra text is
dropped.  -/

/-- Scalar kinds that get the `numpy.` namespace prefix. -/
def numpy_scalar_types : List String :=
  ["int8", "int16", "int32", "int64",
   "float16", "float32", "float64",
   "complex32", "complex64", "longcomplex"]

/-- Non-bracket character class of the ndarray regex. -/
def non_bracket (c : Char) : Bool := !(c = '[' || c = ']')

/-- Match the ndarray pattern at the current position.  Returns
(type text, optional shape text, rest after the match). -/
def match_numpy_ndarray (cs : List Char) : Option (String × Option String × List Char) :=
  if starts_with_lit "numpy".data cs then
    match cs.drop 5 with
    | c :: r0 =>
      if c = '\n' then none
      else if starts_with_lit "ndarray[".data r0 then
        let r1 := r0.drop 8
        let ty := take_run non_bracket r1
        if ty.1.isEmpty then none
        else
          match ty.2 with
          | '[' :: r2 =>
            let sh := take_run non_bracket r2
            if sh.1.isEmpty then none
            else
              match sh.2 with
              | ']' :: r3 =>
                let ex := take_run non_bracket r3
                match ex.2 with
                | ']' :: r4 => some (String.mk ty.1, some (String.mk sh.1), r4)
                | _ => none
              | _ => none
          | ']' :: r2 => some (String.mk ty.1, none, r2)
          | _ => none
      else none
    | [] => none
  else none

/-- `replace_numpy_array` (source lines 232-249), applied to one match. -/
def replace_numpy_array (bare : Bool) (ty : String) (shape : Option String) : String :=
  if bare then "numpy.ndarray"
  else
    let ty' := if numpy_scalar_types.contains ty then "numpy." ++ ty else ty
    let shape' := match shape with
      | some s => ", _Shape[" ++ s ++ "]"
      | none => ""
    "numpy.ndarray[" ++ ty' ++ shape' ++ "]"

/-- `re.sub` loop of the ndarray regex. -/
def numpy_sub_aux (bare : Bool) : Nat → List Char → List Char
  | 0, cs => cs
  | _ + 1, [] => []
  | fuel + 1, c :: cs =>
    match match_numpy_ndarray (c :: cs) with
    | some m => (replace_numpy_array bare m.1 m.2.1).data ++ numpy_sub_aux bare fuel m.2.2
    | none => c :: numpy_sub_aux bare fuel cs

/-- The whole-string substitution for the ndarray regex (the first entry of
`GLOBAL_CLASSNAME_REPLACEMENTS`). -/
def replace_numpy_sub (bare : Bool) (s : String) : String :=
  String.mk (numpy_sub_aux bare s.data.length s.data)

/-- `StubsGenerator.apply_classname_replacements` (source lines 298-302):
the ndarray substitution, then the typing substitution (dictionary
insertion order).  `bare` is the `BARE_NUPMY_NDARRAY` global. -/
def apply_classname_replacements (bare : Bool) (s : String) : String :=
  replace_typing_types_sub (replace_numpy_sub bare s)

/-!  ## FunctionSignature (source lines 58-175)

The class-level globals (`ignore_invalid_signature`,
`ignore_invalid_defaultarg`, `signature_downgrade`, and the module global
`BARE_NUPMY_NDARRAY`) are gathered into a configuration record; the two
mutable class counters into a counter record threaded through the calls.
CPython `ast.parse` is the oracle parameter `parse_ok` (the code only
branches on whether parsing raised `SyntaxError`).  -/

structure StubgenConfig where
  ignore_invalid_signature : Bool
  ignore_invalid_defaultarg : Bool
  signature_downgrade : Bool
  bare_numpy_ndarray : Bool
deriving DecidableEq, Repr

structure FSCounters where
  n_invalid_signatures : Nat
  n_invalid_default_values : Nat
deriving DecidableEq, Repr

/-- `FunctionSignature.n_fatal_errors` (source lines 72-75). -/
def n_fatal_errors (cfg : StubgenConfig) (c : FSCounters) : Nat :=
  (if cfg.ignore_invalid_defaultarg then 0 else c.n_invalid_default_values) +
    (if cfg.ignore_invalid_signature then 0 else c.n_invalid_signatures)

structure FunctionSignature where
  name : String
  args : String
  rtype : String
deriving DecidableEq, Repr

/-- The candidate declaration text assembled for validation
(source line 153). -/
def assemble_def_str (name args rtype : String) : String :=
  "def " ++ name ++ "(" ++ args ++ ") -> " ++ rtype ++ ": ..."

/-- `FunctionSignature.__init__` (source lines 77-168), default
(non-boost) path.  Returns the updated counters and the stored fields. -/
def mk_function_signature (parse_ok : String → Bool) (cfg : StubgenConfig)
    (st : FSCounters) (name args rtype : String) (validate : Bool) :
    FSCounters × FunctionSignature :=
  if validate then
    let rd := replace_default_pybind11_repr args
    let args1 := rd.2
    let st1 := if rd.1.isEmpty then st
      else { st with n_invalid_default_values := st.n_invalid_default_values + 1 }
    if parse_ok (assemble_def_str name args1 rtype) then
      (st1, ⟨name, args1, rtype⟩)
    else
      let st2 := { st1 with n_invalid_signatures := st1.n_invalid_signatures + 1 }
      if cfg.signature_downgrade then
        (st2, ⟨name, "*args, **kwargs", "typing.Any"⟩)
      else
        (st2, ⟨name, args1, rtype⟩)
  else (st, ⟨name, args, rtype⟩)

/-!  ## The docstring signature line regex (source lines 307-327)

Pattern: an optional group of whitespace, an overload number and one
arbitrary character; whitespace; the member name; whitespace; an argument
group of balanced parentheses nested at most three deep; a closing
parenthesis; an arrow with surrounding whitespace; a non-empty run of
non-parenthesis characters (the return type).  `re.match` anchors at the
start of the line only.  Since the argument group must be fully balanced,
the only viable closing parenthesis is the first one reached at depth
zero; the optional number group backtracks over shorter digit runs and
over its absence, which the candidate loop below reproduces.  -/

def drop_py_space (cs : List Char) : List Char := cs.dropWhile is_py_space

/-- Scan the argument group: stop at the first closing parenthesis at
depth zero, failing if the nesting exceeds three or the text ends. -/
def scan_args_close : List Char → Nat → Option (List Char × List Char)
  | [], _ => none
  | c :: r, d =>
    if c = ')' then
      match d with
      | 0 => some ([], r)
      | d' + 1 => (scan_args_close r d').map (fun p => (')' :: p.1, p.2))
    else if c = '(' then
      if d ≥ 3 then none
      else (scan_args_close r (d + 1)).map (fun p => ('(' :: p.1, p.2))
    else (scan_args_close r d).map (fun p => (c :: p.1, p.2))

/-- After the opening parenthesis: the argument group, the arrow, and the
greedy non-parenthesis return-type run. -/
def parse_args_rtype (cs : List Char) : Option (String × String) :=
  (scan_args_close cs 0).bind (fun p =>
    let r1 := drop_py_space p.2
    if starts_with_lit "->".data r1 then
      let r2 := drop_py_space (r1.drop 2)
      let rt := take_run (fun c => !(c = '(' || c = ')')) r2
      if rt.1.isEmpty then none
      else some (String.mk p.1, String.mk rt.1)
    else none)

/-- Whitespace, the member name literally, whitespace, an opening
parenthesis, then the argument and return-type groups. -/
def match_sig_after_ws (name : String) (cs : List Char) : Option (String × String) :=
  let r1 := drop_py_space cs
  if starts_with_lit name.data r1 then
    let r2 := drop_py_space (r1.drop name.data.length)
    match r2 with
    | '(' :: r3 => parse_args_rtype r3
    | _ => none
  else none

/-- Backtracking over the optional overload-number group: `ds` is the full
leading digit run and `after` the rest; try taking `k` digits (longest
first) followed by one arbitrary non-newline character. -/
def try_number_k (name : String) (ds after : List Char) : Nat → Option (String × String)
  | 0 => none
  | k + 1 =>
    let rest := ds.drop (k + 1) ++ after
    let attempt := match rest with
      | c :: r => if c = '\n' then none else match_sig_after_ws name r
      | [] => none
    match attempt with
    | some v => some v
    | none => try_number_k name ds after k

/-- One docstring line against the signature regex: returns the captured
(argument text, return-type text) when the line matches. -/
def match_signature_line (name : String) (line : String) : Option (String × String) :=
  let cs := line.data
  let ws := cs.dropWhile is_py_space
  let dg := take_run is_digit_char ws
  match try_number_k name dg.1 dg.2 dg.1.length with
  | some v => some v
  | none => match_sig_after_ws name cs

/-- The module-name stripping substitution (source lines 330-334): every
occurrence of the module name, a dot and a word run is replaced by the
word run. -/
def strip_module_name_aux (modName : List Char) : Nat → List Char → List Char
  | 0, cs => cs
  | _ + 1, [] => []
  | fuel + 1, c :: cs =>
    if starts_with_lit (modName ++ ['.']) (c :: cs) then
      let rest := (c :: cs).drop (modName.length + 1)
      let wr := take_run is_word_char rest
      if wr.1.isEmpty then c :: strip_module_name_aux modName fuel cs
      else wr.1 ++ strip_module_name_aux modName fuel wr.2
    else c :: strip_module_name_aux modName fuel cs

def strip_module_name (modName : String) (s : String) : String :=
  String.mk (strip_module_name_aux modName.data s.data.length s.data)

/-- `StubsGenerator.function_signatures_from_docstring`
(source lines 304-343): match every docstring line, construct a validated
`FunctionSignature` per match, strip the module name when one is given,
apply the class-name replacements, then deduplicate and sort by argument
text (`sorted (list (set ...)), key = args`; the Lean rendering is
`List.dedup` followed by a stable merge sort under the Python string
order).  A missing docstring raises `AttributeError` in the source and
yields the empty list. -/
def function_signatures_from_docstring (parse_ok : String → Bool)
    (cfg : StubgenConfig) (st : FSCounters) (name : String)
    (doc : Option String) (module_name : String) :
    FSCounters × List FunctionSignature :=
  match doc with
  | none => (st, [])
  | some docstring =>
    let step := fun (acc : FSCounters × List FunctionSignature) (line : String) =>
      match match_signature_line name line with
      | some ar =>
        let r := mk_function_signature parse_ok cfg acc.1 name ar.1 ar.2 true
        (r.1, acc.2 ++ [r.2])
      | none => acc
    let r := (py_split docstring "\n").foldl step (st, [])
    let sigs1 := if module_name.length ≠ 0 then
        r.2.map (fun s => { s with
          args := strip_module_name module_name s.args,
          rtype := strip_module_name module_name s.rtype })
      else r.2
    let sigs2 := sigs1.map (fun s => { s with
      args := apply_classname_replacements cfg.bare_numpy_ndarray s.args,
      rtype := apply_classname_replacements cfg.bare_numpy_ndarray s.rtype })
    (r.1, sigs2.dedup.insertionSort (fun a b => str_le a.args b.args = true))

/-!  ## Docstring sanitizing and rendering helpers
(source lines 276-284, 381-410)  -/

/-- `StubsGenerator._indent` applied by `indent`: non-empty lines get four
spaces. -/
def indent_line (l : String) : String :=
  if l.length ≠ 0 then "    " ++ l else l

/-- `StubsGenerator.indent`. -/
def indent_block (s : String) : String :=
  String.intercalate "\n" ((py_split s "\n").map indent_line)

/-- `StubsGenerator.format_docstring`. -/
def format_docstring (d : String) : String :=
  indent_block ("\"\"\"\n" ++ strip_newlines d ++ "\n\"\"\"")

/-- The body of the `remove_signatures` regex after the optional number
group: a word run, whitespace, an opening parenthesis, and a closing
parenthesis somewhere later on the same line (the remaining pattern parts
are optional or may be empty). -/
def remove_after_word (cs : List Char) : Bool :=
  let wr := take_run is_word_char cs
  if wr.1.isEmpty then false
  else
    let r2 := drop_py_space wr.2
    match r2 with
    | '(' :: r3 => (r3.takeWhile (· ≠ '\n')).contains ')'
    | _ => false

/-- Backtracking over the optional number group of the
`remove_signatures` regex (that group ends with an extra whitespace run). -/
def remove_try_number_k (ds after : List Char) : Nat → Bool
  | 0 => false
  | k + 1 =>
    let rest := ds.drop (k + 1) ++ after
    let attempt := match rest with
      | c :: r => if c = '\n' then false else remove_after_word (drop_py_space r)
      | [] => false
    attempt || remove_try_number_k ds after k

/-- Whether a double-newline chunk matches the signature-removal regex of
`StubsGenerator.remove_signatures` (source lines 390-391). -/
def chunk_matches_signature (chunk : String) : Bool :=
  let cs := chunk.data
  let ws := cs.dropWhile is_py_space
  let dg := take_run is_digit_char ws
  remove_try_number_k dg.1 dg.2 dg.1.length || remove_after_word cs

/-- `StubsGenerator.remove_signatures` (source lines 381-396). -/
def remove_signatures (doc : Option String) : String :=
  match doc with
  | none => ""
  | some d =>
    let chunks := (py_split d "\n\n").filter (fun l => l ≠ "Overloaded function.")
    String.intercalate "\n\n" (chunks.filter (fun l => !chunk_matches_signature l))

/-- `StubsGenerator.sanitize_docstring` (source lines 398-406). -/
def sanitize_docstring (doc : Option String) : String :=
  let d := rstrip_newlines (remove_signatures doc)
  if d.length ≠ 0 && d.data.all is_py_space then "" else d

/-!  ## FreeFunctionStubsGenerator.to_lines (source lines 505-524)  -/

/-- Per-signature rendering loop; the string argument is the current
docstring state (emptied after the first overload prints it). -/
def free_function_lines_aux (multi : Bool) :
    List FunctionSignature → String → List String
  | [], _ => []
  | sig :: rest, ds =>
    (if multi then ["@typing.overload"] else []) ++
    ["def " ++ sig.name ++ "(" ++ sig.args ++ ") -> " ++ sig.rtype ++ ":"] ++
    (if ds.length ≠ 0 then [format_docstring ds] else [indent_block "pass"]) ++
    free_function_lines_aux multi rest ""

/-- `FreeFunctionStubsGenerator.to_lines`. -/
def free_function_to_lines (sigs : List FunctionSignature) (doc : Option String) :
    List String :=
  free_function_lines_aux (sigs.length > 1) sigs (sanitize_docstring doc)

/-!  ## ClassMemberStubsGenerator.to_lines (source lines 542-566)

The receiver branch calls `split_arguments`, whose assertion failure is
propagated as an `Except.error`.  -/

def class_member_lines_aux (multi : Bool) :
    List FunctionSignature → String → Except String (List String)
  | [], _ => Except.ok []
  | sig :: rest, ds =>
    let static := !py_startswith (py_strip sig.args) "self"
    let argsE : Except String String :=
      if static then Except.ok sig.args
      else
        match split_arguments sig.args with
        | some segs => Except.ok (String.intercalate "," ("self" :: segs.drop 1))
        | none => Except.error "AssertionError"
    match argsE with
    | Except.error e => Except.error e
    | Except.ok args =>
      (class_member_lines_aux multi rest "").map (fun tail =>
        (if static then ["@staticmethod"] else []) ++
        (if multi then ["@typing.overload"] else []) ++
        ["def " ++ sig.name ++ "(" ++ args ++ ") -> " ++ sig.rtype ++ ": " ++
          (if ds.length ≠ 0 then "" else "...")] ++
        (if ds.length ≠ 0 then [format_docstring ds] else []) ++ tail)

/-- `ClassMemberStubsGenerator.to_lines`. -/
def class_member_to_lines (sigs : List FunctionSignature) (doc : Option String) :
    Except String (List String) :=
  class_member_lines_aux (sigs.length > 1) sigs (sanitize_docstring doc)

/-!  ## PropertyStubsGenerator.to_lines (source lines 579-602)  -/

structure PropertySignature where
  rtype : String
  setter_args : String
  access_type : Nat
deriving DecidableEq, Repr

/-- Content before the last closing square bracket, when non-empty: the
greedy second group of the back-fill regex. -/
def last_close_with_content (cs : List Char) : Option (List Char) :=
  let rev := cs.reverse
  match rev.dropWhile (· ≠ ']') with
  | ']' :: prefRev => if prefRev.isEmpty then none else some prefRev.reverse
  | _ => none

/-- The `[returns TYPE]` back-fill regex of `PropertyStubsGenerator`
(source line 584): on the first line of the docstring, the rightmost
occurrence of the open-bracket returns tag followed, at distance at least
one, by a closing bracket; the captured group runs to the last such
closing bracket. -/
def match_returns_doc (d : String) : Option String :=
  let fl := d.data.takeWhile (· ≠ '\n')
  let tag := "[returns ".data
  ((List.range (fl.length + 1)).reverse).findSome? (fun i =>
    if starts_with_lit tag (fl.drop i) then
      (last_close_with_content (fl.drop (i + tag.length))).map String.mk
    else none)

/-- `PropertyStubsGenerator.to_lines`.  When a setter exists
(`setter_args` is not the text None) the source formats the setter def
line with a template that contains an rtype placeholder while `rtype` is
passed as a keyword argument to `list.append` instead of `str.format`
(source line 596), so `str.format` raises `KeyError` — modelled as
`Except.error`. -/
def property_to_lines (field_name : String) (sig : PropertySignature)
    (doc : Option String) : Except String (List String) :=
  let docstring := sanitize_docstring doc
  let rtype := if sig.rtype = "None" then
      match match_returns_doc docstring with
      | some r => r
      | none => sig.rtype
    else sig.rtype
  let docstring_prop := String.intercalate "\n\n" [docstring, ":type: " ++ rtype]
  let result := ["@property",
    "def " ++ field_name ++ "(self) -> " ++ rtype ++ ":",
    format_docstring docstring_prop]
  if sig.setter_args ≠ "None" then Except.error "KeyError: rtype"
  else Except.ok result

/-!  ## Class reordering in ModuleStubsGenerator.parse
(source lines 795-812)

The comparator swaps the pair when the earlier class is a strict subclass
of the later one; the double loop over index pairs is rendered as a
recursion: the inner pass carries the current occupant of position `i`
through positions `i+1 ...`, and the outer pass recurses on the leftover
tail.  `sub a b` models `a.klass is not b.klass and issubclass (a.klass,
b.klass)`.  -/

def reorder_inner (sub : α → α → Bool) : α → List α → α × List α
  | cur, [] => (cur, [])
  | cur, b :: rest =>
    if sub cur b then
      let p := reorder_inner sub b rest
      (p.1, cur :: p.2)
    else
      let p := reorder_inner sub cur rest
      (p.1, b :: p.2)

def reorder_classes_aux (sub : α → α → Bool) : Nat → List α → List α
  | 0, l => l
  | _ + 1, [] => []
  | fuel + 1, a :: rest =>
    let p := reorder_inner sub a rest
    p.1 :: reorder_classes_aux sub fuel p.2

/-- The pairwise reordering of the class list. -/
def reorder_classes (sub : α → α → Bool) (l : List α) : List α :=
  reorder_classes_aux sub l.length l

/-- Concrete two-class hierarchy for the worked example: `A` strictly
derives from `B`. -/
inductive DemoClass where
  | A
  | B
deriving DecidableEq, Repr, Fintype

def demo_sub : DemoClass → DemoClass → Bool
  | DemoClass.A, DemoClass.B => true
  | _, _ => false

/-!  ## The driver loop of main (source lines 1004-1024)

Each requested root module is abstracted by the pair of counter
increments its parse produces (module parsing changes the global
diagnostic state only through `FunctionSignature` construction).  After
parsing a root, `main` checks `n_fatal_errors () == 0` before writing that
root; after the loop it exits with an error status when
`n_fatal_errors () > 0`.  Rendering and writing do not change the
counters.  -/

/-- Parsing one root adds its diagnostic increments to the counters. -/
def parse_root (st : FSCounters) (r : Nat × Nat) : FSCounters :=
  ⟨st.n_invalid_signatures + r.1, st.n_invalid_default_values + r.2⟩

/-- The per-root loop: returns the written-or-skipped flag of each root
and the final counters. -/
def main_loop (cfg : StubgenConfig) : FSCounters → List (Nat × Nat) → List Bool × FSCounters
  | st, [] => ([], st)
  | st, r :: rs =>
    let st' := parse_root st r
    let written := n_fatal_errors cfg st' == 0
    let rest := main_loop cfg st' rs
    (written :: rest.1, rest.2)

/-- The whole run: written flags, final counters, and whether the run
exits with an error status. -/
def main_run (cfg : StubgenConfig) (roots : List (Nat × Nat)) :
    List Bool × FSCounters × Bool :=
  let r := main_loop cfg ⟨0, 0⟩ roots
  (r.1, r.2, n_fatal_errors cfg r.2 > 0)

/-- Counters after each successive root (specification-side closed form
for the statement of claim C2). -/
def prefix_counters (st : FSCounters) : List (Nat × Nat) → List FSCounters
  | [] => []
  | r :: rs =>
    let st' := parse_root st r
    st' :: prefix_counters st' rs

/-- Counters after all roots. -/
def total_counters (st : FSCounters) (roots : List (Nat × Nat)) : FSCounters :=
  roots.foldl parse_root st

/-!  # Theorems  -/

theorem take_run_append (p : Char → Bool) :
    ∀ (run rest : List Char), (∀ c ∈ run, p c = true) →
      (∀ c, rest.head? = some c → p c = false) →
      take_run p (run ++ rest) = (run, rest) := by
  intro run
  induction run with
  | nil =>
    intro rest _ h2
    cases rest with
    | nil => simp [take_run]
    | cons c r => simp [take_run, h2 c rfl]
  | cons a run' ih =>
    intro rest h1 h2
    have hpa : p a = true := h1 a (by simp)
    have hr := ih rest (fun c hc => h1 c (by simp [hc])) h2
    simp [take_run, hpa, hr]

theorem intercalate_cons_of_ne_nil (sep x : List Char) (l : List (List Char))
    (h : l ≠ []) :
    List.intercalate sep (x :: l) = x ++ sep ++ List.intercalate sep l := by
  cases l with
  | nil => exact absurd rfl h
  | cons y t => simp [List.intercalate, List.intersperse]

theorem split_core_ne_nil :
    ∀ (cs : List Char) (b : Nat) (cur : List Char) (segs : List (List Char)),
      split_arguments_core cs b cur = some segs → segs ≠ [] := by
  intro cs
  induction cs with
  | nil =>
    intro b cur segs h
    cases b with
    | zero =>
      simp only [split_arguments_core, Option.some.injEq] at h
      simp [← h]
    | succ b' => simp [split_arguments_core] at h
  | cons c cs' ih =>
    intro b cur segs h
    simp only [split_arguments_core] at h
    split at h
    · exact ih _ _ _ h
    · split at h
      · cases b with
        | zero => simp at h
        | succ b' => exact ih _ _ _ h
      · split at h
        · rw [Option.map_eq_some'] at h
          obtain ⟨segs', _, rfl⟩ := h
          simp
        · exact ih _ _ _ h

theorem split_core_join :
    ∀ (cs : List Char) (b : Nat) (cur : List Char) (segs : List (List Char)),
      split_arguments_core cs b cur = some segs →
      List.intercalate [','] segs = cur.reverse ++ cs := by
  intro cs
  induction cs with
  | nil =>
    intro b cur segs h
    cases b with
    | zero =>
      simp only [split_arguments_core, Option.some.injEq] at h
      simp [← h, List.intercalate]
    | succ b' => simp [split_arguments_core] at h
  | cons c cs' ih =>
    intro b cur segs h
    simp only [split_arguments_core] at h
    split at h
    · rename_i hc
      have := ih _ _ _ h
      simpa [hc] using this
    · split at h
      · rename_i hc
        cases b with
        | zero => simp at h
        | succ b' =>
          have := ih _ _ _ h
          simpa [hc] using this
      · split at h
        · rename_i hc
          rw [Option.map_eq_some'] at h
          obtain ⟨segs', hs, rfl⟩ := h
          have hne := split_core_ne_nil _ _ _ _ hs
          have hj := ih _ _ _ hs
          rw [intercalate_cons_of_ne_nil _ _ _ hne, hj]
          have hcc : c = ',' := by
            simp only [Bool.and_eq_true, decide_eq_true_eq] at hc
            exact hc.1
          simp [hcc]
        · have hj := ih _ _ _ h
          simpa using hj

theorem split_core_isSome :
    ∀ (cs : List Char) (b : Nat) (cur : List Char),
      (split_arguments_core cs b cur).isSome = bracket_balanced_core cs b := by
  intro cs
  induction cs with
  | nil =>
    intro b cur
    cases b with
    | zero => simp [split_arguments_core, bracket_balanced_core]
    | succ b' => simp [split_arguments_core, bracket_balanced_core]
  | cons c cs' ih =>
    intro b cur
    simp only [split_arguments_core, bracket_balanced_core]
    split
    · exact ih _ _
    · split
      · cases b with
        | zero => simp
        | succ b' => exact ih _ _
      · split
        · rename_i hc
          simp only [Bool.and_eq_true, decide_eq_true_eq] at hc
          obtain ⟨-, rfl⟩ := hc
          simp [ih]
        · exact ih _ _

theorem split_core_length :
    ∀ (cs : List Char) (b : Nat) (cur : List Char) (segs : List (List Char)),
      split_arguments_core cs b cur = some segs →
      segs.length = count_top_level_commas_core cs b + 1 := by
  intro cs
  induction cs with
  | nil =>
    intro b cur segs h
    cases b with
    | zero =>
      simp only [split_arguments_core, Option.some.injEq] at h
      simp [← h, count_top_level_commas_core]
    | succ b' => simp [split_arguments_core] at h
  | cons c cs' ih =>
    intro b cur segs h
    simp only [split_arguments_core] at h
    simp only [count_top_level_commas_core]
    by_cases hc1 : c = '['
    · rw [if_pos hc1] at h ⊢
      exact ih _ _ _ h
    · rw [if_neg hc1] at h ⊢
      by_cases hc2 : c = ']'
      · rw [if_pos hc2] at h ⊢
        cases b with
        | zero => simp at h
        | succ b' => simpa using ih _ _ _ h
      · rw [if_neg hc2] at h ⊢
        by_cases hc3 : (decide (c = ',') && decide (b = 0)) = true
        · rw [if_pos hc3] at h ⊢
          simp only [Bool.and_eq_true, decide_eq_true_eq] at hc3
          obtain ⟨-, rfl⟩ := hc3
          rw [Option.map_eq_some'] at h
          obtain ⟨segs', hs, rfl⟩ := h
          simp [ih _ _ _ hs]
        · rw [if_neg hc3] at h ⊢
          exact ih _ _ _ h

theorem ntlc_append (xs ys : List Char) :
    ∀ b : Nat, no_top_level_comma_core (xs ++ ys) b =
      (no_top_level_comma_core xs b && no_top_level_comma_core ys (depth_scan xs b)) := by
  induction xs with
  | nil => intro b; simp [no_top_level_comma_core, depth_scan]
  | cons c cs ih =>
    intro b
    simp only [List.cons_append, no_top_level_comma_core, depth_scan]
    split
    · exact ih _
    · split
      · exact ih _
      · split
        · simp
        · exact ih _

theorem depth_scan_append (xs ys : List Char) :
    ∀ b : Nat, depth_scan (xs ++ ys) b = depth_scan ys (depth_scan xs b) := by
  induction xs with
  | nil => intro b; simp [depth_scan]
  | cons c cs ih =>
    intro b
    simp only [List.cons_append, depth_scan]
    split
    · exact ih _
    · split
      · exact ih _
      · exact ih _

theorem split_core_segments :
    ∀ (cs : List Char) (b : Nat) (cur : List Char) (segs : List (List Char)),
      split_arguments_core cs b cur = some segs →
      no_top_level_comma_core cur.reverse 0 = true →
      depth_scan cur.reverse 0 = b →
      ∀ seg ∈ segs, no_top_level_comma_core seg 0 = true := by
  intro cs
  induction cs with
  | nil =>
    intro b cur segs h hn _
    cases b with
    | zero =>
      simp only [split_arguments_core, Option.some.injEq] at h
      intro seg hseg
      rw [← h] at hseg
      simp at hseg
      exact hseg ▸ hn
    | succ b' => simp [split_arguments_core] at h
  | cons c cs' ih =>
    intro b cur segs h hn hd
    simp only [split_arguments_core] at h
    split at h
    · rename_i hc
      refine ih _ _ _ h ?_ ?_
      · subst hc
        rw [List.reverse_cons, ntlc_append, hn, hd]
        simp [no_top_level_comma_core]
      · subst hc
        rw [List.reverse_cons, depth_scan_append, hd]
        simp [depth_scan]
    · rename_i hc1
      split at h
      · rename_i hc
        cases b with
        | zero => simp at h
        | succ b' =>
          refine ih _ _ _ h ?_ ?_
          · subst hc
            rw [List.reverse_cons, ntlc_append, hn, hd]
            simp [no_top_level_comma_core]
          · subst hc
            rw [List.reverse_cons, depth_scan_append, hd]
            simp [depth_scan]
      · rename_i hc2
        split at h
        · rename_i hc
          rw [Option.map_eq_some'] at h
          obtain ⟨segs', hs, rfl⟩ := h
          intro seg hseg
          rcases List.mem_cons.mp hseg with hh | ht
          · exact hh ▸ hn
          · refine ih _ _ _ hs ?_ ?_ seg ht
            · simp [no_top_level_comma_core]
            · simp [depth_scan]
        · rename_i hc
          refine ih _ _ _ h ?_ ?_
          · rw [List.reverse_cons, ntlc_append, hn, hd]
            simp only [no_top_level_comma_core, Bool.true_and]
            rw [if_neg hc1, if_neg hc2, if_neg hc]
          · rw [List.reverse_cons, depth_scan_append, hd]
            simp only [depth_scan]
            rw [if_neg hc1, if_neg hc2]

/-- Claim C10 (amended): for argument text with balanced square brackets
whose stripped form is non-empty, `split_arguments` succeeds, joining the
returned segments with commas reproduces the text, no returned segment
contains a bracket-top-level comma, and the number of segments is one more
than the number of bracket-top-level commas (so exactly the top-level
commas are split points); argument text that strips to the empty string —
not only the empty text — yields the empty segment list. -/
theorem c10_split_arguments_spec (args : String)
    (h1 : bracket_balanced args = true)
    (h2 : (py_strip args).length ≠ 0) :
    (split_arguments args).isSome = true ∧
    (∀ segs, split_arguments args = some segs →
      join_commas segs = args ∧
      (∀ seg ∈ segs, no_top_level_comma seg = true) ∧
      segs.length = count_top_level_commas args + 1) := by
  constructor
  · rw [split_arguments, if_neg h2]
    have hb := split_core_isSome args.data 0 []
    rw [bracket_balanced] at h1
    rw [h1] at hb
    simpa using hb
  · intro segs hsegs
    rw [split_arguments, if_neg h2, Option.map_eq_some'] at hsegs
    obtain ⟨segsL, hs, rfl⟩ := hsegs
    refine ⟨?_, ?_, ?_⟩
    · have hj := split_core_join _ _ _ _ hs
      simp only [List.reverse_nil, List.nil_append] at hj
      rw [join_commas, List.map_map]
      have hid : (String.data ∘ String.mk) = id := rfl
      rw [hid, List.map_id, hj]
    · intro seg hseg
      rw [List.mem_map] at hseg
      obtain ⟨sl, hsl, rfl⟩ := hseg
      have := split_core_segments _ _ _ _ hs (by simp [no_top_level_comma_core])
        (by simp [depth_scan]) sl hsl
      simpa [no_top_level_comma] using this
    · have := split_core_length _ _ _ _ hs
      simpa [count_top_level_commas] using this

/-- Witness for C10 at a concrete argument text with a nested comma. -/
theorem c10_split_arguments_spec_witness :
    bracket_balanced "a: Dict[str, int], b: int" = true ∧
    (py_strip "a: Dict[str, int], b: int").length ≠ 0 ∧
    ((split_arguments "a: Dict[str, int], b: int").isSome = true ∧
    (∀ segs, split_arguments "a: Dict[str, int], b: int" = some segs →
      join_commas segs = "a: Dict[str, int], b: int" ∧
      (∀ seg ∈ segs, no_top_level_comma seg = true) ∧
      segs.length = count_top_level_commas "a: Dict[str, int], b: int" + 1)) :=
  ⟨by decide, by decide, c10_split_arguments_spec _ (by decide) (by decide)⟩

/-- Counterexample to C10 as stated: whitespace-only argument text has
balanced brackets but splits to the empty list, whose comma-join is the
empty string, not the original text. -/
theorem c10_counterexample :
    bracket_balanced " " = true ∧
    split_arguments " " = some [] ∧
    join_commas [] ≠ " " := by
  refine ⟨by decide, by decide, by decide⟩

theorem match_class_repr_not_lt (c : Char) (cs : List Char) (h : c ≠ '<') :
    match_class_repr (c :: cs) = none := by
  rw [match_class_repr.eq_def]
  split
  · rename_i heq
    rw [List.cons.injEq] at heq
    exact absurd heq.1 h
  · rfl

theorem match_enum_repr_not_lt (c : Char) (cs : List Char) (h : c ≠ '<') :
    match_enum_repr (c :: cs) = none := by
  rw [match_enum_repr.eq_def]
  split
  · rename_i heq
    rw [List.cons.injEq] at heq
    exact absurd heq.1 h
  · rfl

/-- Text without an opening angle bracket is left unchanged by the repr
substitution and records nothing. -/
theorem repr_sub_aux_no_lt :
    ∀ (fuel : Nat) (cs : List Char), '<' ∉ cs → repr_sub_aux fuel cs = ([], cs) := by
  intro fuel
  induction fuel with
  | zero => intro cs _; rfl
  | succ f ih =>
    intro cs hcs
    cases cs with
    | nil => rfl
    | cons c cs' =>
      have hc : c ≠ '<' := fun h => hcs (h ▸ List.mem_cons_self c cs')
      have h1 := match_class_repr_not_lt c cs' hc
      have h2 := match_enum_repr_not_lt c cs' hc
      have h3 : '<' ∉ cs' := fun h => hcs (List.mem_cons_of_mem c h)
      simp only [repr_sub_aux, h1, h2, ih cs' h3]

theorem starts_with_lit_self :
    ∀ (p r : List Char), starts_with_lit p (p ++ r) = true := by
  intro p
  induction p with
  | nil => intro r; rfl
  | cons a p' ih => intro r; simp [starts_with_lit, ih]

theorem dot_word_star_not_dot (fuel : Nat) (cs : List Char)
    (h : ∀ c, cs.head? = some c → c ≠ '.') :
    dot_word_star fuel cs = ([], cs) := by
  cases fuel with
  | zero => rfl
  | succ f =>
    cases cs with
    | nil => rfl
    | cons c cs' =>
      simp only [dot_word_star]
      rw [if_neg (h c rfl)]

/-- The class-repr alternative matches exactly an object repr of the form
open angle, word-run class name, the object-at tag, hex run, close angle. -/
theorem match_class_repr_exact (cls hex post : List Char)
    (hcls_ne : cls ≠ []) (hcls : ∀ c ∈ cls, is_word_char c = true)
    (hhex_ne : hex ≠ []) (hhex : ∀ c ∈ hex, is_hex_char c = true) :
    match_class_repr ('<' :: (cls ++ " object at 0x".data ++ (hex ++ '>' :: post))) =
      some ('<' :: (cls ++ " object at 0x".data ++ hex ++ ['>']), post) := by
  have hw : take_run is_word_char (cls ++ (" object at 0x".data ++ (hex ++ '>' :: post)))
      = (cls, " object at 0x".data ++ (hex ++ '>' :: post)) := by
    refine take_run_append _ _ _ hcls ?_
    intro c hc
    simp at hc
    rw [← hc]
    decide
  have hdot : dot_word_star (cls ++ (" object at 0x".data ++ (hex ++ '>' :: post))).length
      (" object at 0x".data ++ (hex ++ '>' :: post)) = ([], " object at 0x".data ++ (hex ++ '>' :: post)) := by
    refine dot_word_star_not_dot _ _ ?_
    intro c hc
    simp at hc
    rw [← hc]
    decide
  have hhx : take_run is_hex_char (hex ++ '>' :: post) = (hex, '>' :: post) := by
    refine take_run_append _ _ _ hhex ?_
    intro c hc
    simp at hc
    rw [← hc]
    decide
  simp only [match_class_repr, List.append_assoc] at *
  rw [hw]
  simp only [List.isEmpty_eq_true, hcls_ne, if_neg]
  rw [hdot]
  simp only [starts_with_lit_self, if_pos]
  rw [List.drop_left]
  rw [hhx]
  simp only [List.isEmpty_eq_true, hhex_ne, if_neg]
  simp

/-- Scanning text that is an angle-bracket-free stretch, one object repr,
and an angle-bracket-free tail: the repr is recorded and replaced by an
ellipsis. -/
theorem repr_sub_aux_single_obj :
    ∀ (pre : List Char) (fuel : Nat) (post cls hex : List Char),
      pre.length + 1 ≤ fuel → '<' ∉ pre → '<' ∉ post →
      cls ≠ [] → (∀ c ∈ cls, is_word_char c = true) →
      hex ≠ [] → (∀ c ∈ hex, is_hex_char c = true) →
      repr_sub_aux fuel
        (pre ++ '<' :: (cls ++ " object at 0x".data ++ hex ++ ['>']) ++ post) =
      ([('<' :: (cls ++ " object at 0x".data ++ hex ++ ['>']))],
        pre ++ "...".data ++ post) := by
  intro pre
  induction pre with
  | nil =>
    intro fuel post cls hex hfuel _ hpost hcne hc hhne hh
    cases fuel with
    | zero => omega
    | succ f =>
      have hm := match_class_repr_exact cls hex post hcne hc hhne hh
      have hn := repr_sub_aux_no_lt f post hpost
      simp only [List.nil_append, List.cons_append, List.append_assoc,
        List.singleton_append] at hm ⊢
      simp only [repr_sub_aux]
      rw [hm]
      simp [hn]
  | cons p pre' ih =>
    intro fuel post cls hex hfuel hpre hpost hcne hc hhne hh
    cases fuel with
    | zero => simp at hfuel
    | succ f =>
      have hp : p ≠ '<' := fun h => hpre (h ▸ List.mem_cons_self p pre')
      have hpre' : '<' ∉ pre' := fun h => hpre (List.mem_cons_of_mem p h)
      have hf : pre'.length + 1 ≤ f := by simp at hfuel; omega
      have hrec := ih f post cls hex hf hpre' hpost hcne hc hhne hh
      simp only [List.cons_append, List.append_assoc, List.singleton_append,
        List.nil_append] at hrec ⊢
      simp only [repr_sub_aux]
      rw [match_class_repr_not_lt p _ hp, match_enum_repr_not_lt p _ hp]
      simp [hrec]

/-- Claim C6 (amended): an object textual representation in the argument
text is replaced by an ellipsis and bumps the invalid-default counter by
one (once per signature); an enum textual representation is instead
replaced by its captured enum path and records nothing.  Stated for any
argument text made of an angle-bracket-free stretch, one object repr and
an angle-bracket-free tail, together with the spec example and a concrete
enum-repr example. -/
theorem c6_default_repr_replacement (pre post cls hex : List Char)
    (hpre : '<' ∉ pre) (hpost : '<' ∉ post)
    (hcne : cls ≠ []) (hc : ∀ c ∈ cls, is_word_char c = true)
    (hhne : hex ≠ []) (hh : ∀ c ∈ hex, is_hex_char c = true)
    (parse_ok : String → Bool) (cfg : StubgenConfig) (st : FSCounters)
    (name rtype : String) :
    (replace_default_pybind11_repr
        (String.mk (pre ++ '<' :: (cls ++ " object at 0x".data ++ hex ++ ['>']) ++ post)) =
      ([String.mk ('<' :: (cls ++ " object at 0x".data ++ hex ++ ['>']))],
        String.mk (pre ++ "...".data ++ post)) ∧
    (mk_function_signature parse_ok cfg st name
        (String.mk (pre ++ '<' :: (cls ++ " object at 0x".data ++ hex ++ ['>']) ++ post))
        rtype true).1.n_invalid_default_values = st.n_invalid_default_values + 1) ∧
    (replace_default_pybind11_repr "x = <MyClass object at 0x7fAB1020>" = -- hyphen-free spec example
      (["<MyClass object at 0x7fAB1020>"], "x = ...") ∧
    replace_default_pybind11_repr "x = <Color.RED: 0>" = ([], "x = Color.RED")) := by
  have hrepl : replace_default_pybind11_repr
      (String.mk (pre ++ '<' :: (cls ++ " object at 0x".data ++ hex ++ ['>']) ++ post)) =
      ([String.mk ('<' :: (cls ++ " object at 0x".data ++ hex ++ ['>']))],
        String.mk (pre ++ "...".data ++ post)) := by
    rw [replace_default_pybind11_repr]
    have hfuel : pre.length + 1 ≤
        (pre ++ '<' :: (cls ++ " object at 0x".data ++ hex ++ ['>']) ++ post).length := by
      simp
    rw [repr_sub_aux_single_obj pre _ post cls hex hfuel hpre hpost hcne hc hhne hh]
    simp
  refine ⟨⟨hrepl, ?_⟩, by decide, by decide⟩
  simp only [mk_function_signature, hrepl, List.isEmpty_cons]
  split
  · split
    · rfl
    · split
      · rfl
      · rfl
  · rename_i hfalse
    exact absurd trivial hfalse

/-- Witness for C6 at the concrete decomposition of the spec example. -/
theorem c6_default_repr_replacement_witness :
    ('<' ∉ "x = ".data) ∧
    (replace_default_pybind11_repr
        (String.mk ("x = ".data ++ '<' :: ("MyClass".data ++ " object at 0x".data ++ "7fAB1020".data ++ ['>']) ++ [])) =
      ([String.mk ('<' :: ("MyClass".data ++ " object at 0x".data ++ "7fAB1020".data ++ ['>']))],
        String.mk ("x = ".data ++ "...".data ++ [])) ∧
    (mk_function_signature (fun _ => true) ⟨false, false, true, false⟩ ⟨0, 0⟩ "f"
        (String.mk ("x = ".data ++ '<' :: ("MyClass".data ++ " object at 0x".data ++ "7fAB1020".data ++ ['>']) ++ []))
        "int" true).1.n_invalid_default_values = (0 : Nat) + 1) :=
  ⟨by decide,
    c6_default_repr_replacement "x = ".data [] "MyClass".data "7fAB1020".data
      (by decide) (by decide) (by decide) (by decide) (by decide) (by decide)
      (fun _ => true) ⟨false, false, true, false⟩ ⟨0, 0⟩ "f" "int" |>.1⟩

/-- Counterexample to C6 as stated: an enum textual representation is not
replaced by an ellipsis and no invalid-default diagnostic is recorded —
the enum path text is substituted instead and the counter stays zero. -/
theorem c6_counterexample :
    replace_default_pybind11_repr "x = <Color.RED: 0>" = ([], "x = Color.RED") ∧
    (mk_function_signature (fun _ => true) ⟨false, false, true, false⟩ ⟨0, 0⟩
        "f" "x = <Color.RED: 0>" "int" true).1 = (⟨0, 0⟩ : FSCounters) ∧
    "x = Color.RED" ≠ "x = ..." := by
  refine ⟨by decide, by decide, by decide⟩

theorem starts_with_lit_decomp : ∀ (p cs : List Char),
    starts_with_lit p cs = true → cs = p ++ cs.drop p.length := by
  intro p
  induction p with
  | nil => intro cs _; simp
  | cons a p' ih =>
    intro cs h
    cases cs with
    | nil => simp [starts_with_lit] at h
    | cons c cs' =>
      simp only [starts_with_lit, Bool.and_eq_true, decide_eq_true_eq] at h
      obtain ⟨rfl, h2⟩ := h
      simpa using ih cs' h2

/-- The typing substitution never fires inside a run of word characters
after a word character (the lookbehind), so a pure identifier that is not
itself one of the alternative tokens is left unchanged (continuation
lemma: the previous character is a word character). -/
theorem typing_sub_aux_after_word (fuel : Nat) :
    ∀ (p : Char) (cs : List Char), is_word_char p = true →
      (∀ c ∈ cs, is_word_char c = true) →
      typing_sub_aux fuel (some p) cs = cs := by
  induction fuel with
  | zero => intro p cs _ _; rfl
  | succ f ih =>
    intro p cs hp hcs
    cases cs with
    | nil => rfl
    | cons c cs' =>
      simp only [typing_sub_aux, hp, if_pos rfl]
      exact congrArg (c :: ·)
        (ih c cs' (hcs c (by simp)) (fun x hx => hcs x (by simp [hx])))

theorem try_typing_token_none (cs : List Char)
    (hword : ∀ c ∈ cs, is_word_char c = true)
    (hnot : ∀ tok ∈ typing_tokens, cs ≠ tok) :
    try_typing_token cs = none := by
  rw [try_typing_token, List.findSome?_eq_none_iff]
  intro tok htok
  by_cases hsw : starts_with_lit tok cs = true
  · have hdec := starts_with_lit_decomp tok cs hsw
    rw [if_pos hsw]
    cases hrest : cs.drop tok.length with
    | nil =>
      exfalso
      apply hnot tok htok
      rw [hdec, hrest, List.append_nil]
    | cons c r =>
      rw [hrest] at hdec
      have hc : c ∈ cs := by rw [hdec]; simp
      simp [hword c hc]
  · rw [if_neg hsw]

theorem match_numpy_needs_bracket (cs : List Char) (h : '[' ∉ cs) :
    match_numpy_ndarray cs = none := by
  rw [match_numpy_ndarray]
  by_cases h5 : starts_with_lit "numpy".data cs = true
  · rw [if_pos h5]
    cases hdrop : cs.drop 5 with
    | nil => rfl
    | cons c r0 =>
      dsimp only
      by_cases hnl : c = '\n'
      · simp [hnl]
      · rw [if_neg hnl]
        by_cases hnd : starts_with_lit "ndarray[".data r0 = true
        · exfalso
          apply h
          have hbr : '[' ∈ r0 := by
            have hd := starts_with_lit_decomp _ _ hnd
            rw [hd]
            simp
          have : '[' ∈ cs.drop 5 := by rw [hdrop]; exact List.mem_cons_of_mem c hbr
          exact List.mem_of_mem_drop this
        · simp [hnd]
  · rw [if_neg h5]

theorem numpy_sub_no_bracket (bare : Bool) :
    ∀ (fuel : Nat) (cs : List Char), '[' ∉ cs → numpy_sub_aux bare fuel cs = cs := by
  intro fuel
  induction fuel with
  | zero => intro cs _; rfl
  | succ f ih =>
    intro cs hcs
    cases cs with
    | nil => rfl
    | cons c cs' =>
      have h3 : '[' ∉ cs' := fun h => hcs (List.mem_cons_of_mem c h)
      simp only [numpy_sub_aux, match_numpy_needs_bracket _ hcs, ih cs' h3]

/-- Claim C4 (amended): of the listed spellings, only `iterator` and
`iterable` are matched case-insensitively in the first letter; `Callable`,
`Dict`, `List`, `Optional`, `Set`, `Tuple` match only capitalized; `Union`
matches only when a literal apostrophe follows; matching is
whole-identifier only, so the lower-case spellings `list`, `optional`,
`dict`, `set`, `tuple`, `union`, `callable` and occurrences embedded in a
longer identifier are left unchanged.  The general conjunct: any non-empty
pure identifier that is not one of the alternative tokens is left
unchanged by the replacements in either array mode. -/
theorem c4_typing_replacements (s : String) (bare : Bool)
    (hne : s.data ≠ [])
    (hword : ∀ c ∈ s.data, is_word_char c = true)
    (hnot : ∀ tok ∈ typing_tokens, s.data ≠ tok) :
    (apply_classname_replacements bare s = s) ∧
    (apply_classname_replacements false "iterator" = "typing.Iterator" ∧
     apply_classname_replacements false "iterable" = "typing.Iterable" ∧
     apply_classname_replacements false "Iterator" = "typing.Iterator" ∧
     apply_classname_replacements false "Iterable" = "typing.Iterable" ∧
     apply_classname_replacements false "Callable" = "typing.Callable" ∧
     apply_classname_replacements false "Dict" = "typing.Dict" ∧
     apply_classname_replacements false "List[int]" = "typing.List[int]" ∧
     apply_classname_replacements false "Optional" = "typing.Optional" ∧
     apply_classname_replacements false "Set" = "typing.Set" ∧
     apply_classname_replacements false "Tuple" = "typing.Tuple" ∧
     apply_classname_replacements false ("Union".push (Char.ofNat 39)) =
       "typing.Union".push (Char.ofNat 39)) ∧
    (apply_classname_replacements false "list" = "list" ∧
     apply_classname_replacements false "optional" = "optional" ∧
     apply_classname_replacements false "dict" = "dict" ∧
     apply_classname_replacements false "set" = "set" ∧
     apply_classname_replacements false "tuple" = "tuple" ∧
     apply_classname_replacements false "union" = "union" ∧
     apply_classname_replacements false "callable" = "callable" ∧
     apply_classname_replacements false "Union" = "Union" ∧
     apply_classname_replacements false "MyList" = "MyList" ∧
     apply_classname_replacements false "Lists" = "Lists") := by
  refine ⟨?_, by decide, by decide⟩
  have hnb : '[' ∉ s.data := by
    intro hmem
    have := hword '[' hmem
    simp [is_word_char] at this
  have h0 : replace_numpy_sub bare s = s := by
    rw [replace_numpy_sub, numpy_sub_no_bracket bare _ _ hnb]
  rw [apply_classname_replacements, h0, replace_typing_types_sub]
  cases hdata : s.data with
  | nil => exact absurd hdata hne
  | cons c cs =>
    simp only [List.length_cons, typing_sub_aux,
      try_typing_token_none _ (hdata ▸ hword) (hdata ▸ hnot)]
    rw [typing_sub_aux_after_word cs.length c cs (hword c (by rw [hdata]; simp))
      (fun x hx => hword x (by rw [hdata]; simp [hx]))]
    rw [← hdata]
    rfl

/-- Witness for C4 at the embedded identifier of the original claim
example. -/
theorem c4_typing_replacements_witness :
    ("Mylist".data ≠ [] ∧ (∀ c ∈ "Mylist".data, is_word_char c = true) ∧
      (∀ tok ∈ typing_tokens, "Mylist".data ≠ tok)) ∧
    apply_classname_replacements false "Mylist" = "Mylist" :=
  ⟨⟨by decide, by decide, by decide⟩,
    (c4_typing_replacements "Mylist" false (by decide) (by decide) (by decide)).1⟩

/-- Counterexample to C4 as stated: the lower-case spelling `list` is not
rewritten to the capitalized typing spelling — the substitution leaves it
unchanged. -/
theorem c4_counterexample :
    apply_classname_replacements false "list" = "list" ∧ "list" ≠ "typing.List" := by
  refine ⟨by decide, by decide⟩

theorem list_char_le_trans : ∀ (as bs cs : List Char),
    list_char_le as bs = true → list_char_le bs cs = true →
    list_char_le as cs = true := by
  intro as
  induction as with
  | nil => intro bs cs _ _; rfl
  | cons a as' ih =>
    intro bs cs h1 h2
    cases bs with
    | nil => simp [list_char_le] at h1
    | cons b bs' =>
      cases cs with
      | nil => simp [list_char_le] at h2
      | cons c cs' =>
        simp only [list_char_le] at h1 h2 ⊢
        by_cases hab : a = b
        · subst hab
          rw [if_pos rfl] at h1
          by_cases hbc : a = c
          · subst hbc
            rw [if_pos rfl] at h2 ⊢
            exact ih _ _ h1 h2
          · rw [if_neg hbc] at h2 ⊢
            exact h2
        · rw [if_neg hab] at h1
          by_cases hbc : b = c
          · subst hbc
            rw [if_neg hab]
            exact h1
          · rw [if_neg hbc] at h2
            by_cases hac : a = c
            · subst hac
              rw [decide_eq_true_eq] at h1 h2
              exact absurd h2 (lt_asymm h1)
            · rw [if_neg hac]
              rw [decide_eq_true_eq] at h1 h2 ⊢
              exact lt_trans h1 h2

theorem list_char_le_total : ∀ (as bs : List Char),
    list_char_le as bs = true ∨ list_char_le bs as = true := by
  intro as
  induction as with
  | nil => intro bs; left; rfl
  | cons a as' ih =>
    intro bs
    cases bs with
    | nil => right; rfl
    | cons b bs' =>
      simp only [list_char_le]
      by_cases hab : a = b
      · subst hab
        rw [if_pos rfl, if_pos rfl]
        exact ih bs'
      · rw [if_neg hab, if_neg (Ne.symm hab)]
        rcases lt_trichotomy a b with h | h | h
        · left; exact decide_eq_true h
        · exact absurd h hab
        · right; exact decide_eq_true h

/-- The deduplicate-then-stable-sort tail of
`function_signatures_from_docstring` always yields a list sorted by
argument text without duplicates. -/
theorem sorted_nodup_dedup_insertionSort (l : List FunctionSignature) :
    List.Pairwise (fun a b => str_le a.args b.args = true)
      (l.dedup.insertionSort (fun a b => str_le a.args b.args = true)) ∧
    (l.dedup.insertionSort (fun a b => str_le a.args b.args = true)).Nodup := by
  haveI : IsTrans FunctionSignature (fun a b => str_le a.args b.args = true) :=
    ⟨fun x y z hx hy => list_char_le_trans _ _ _ hx hy⟩
  haveI : IsTotal FunctionSignature (fun a b => str_le a.args b.args = true) :=
    ⟨fun x y => list_char_le_total _ _⟩
  constructor
  · exact List.sorted_insertionSort _ _
  · exact (List.perm_insertionSort _ _).symm.nodup (List.nodup_dedup l)

/-- Claim C5: the signatures extracted from one docstring are
deduplicated (by name, argument text, return text) and sorted by argument
text; on the two-overload example docstring exactly two signatures come
out, ordered float before int, and the rendering marks each with an
overload marker. -/
theorem c5_signatures_dedup_sorted (parse_ok : String → Bool)
    (h1 : parse_ok "def f(a: int) -> int: ..." = true)
    (h2 : parse_ok "def f(a: float) -> float: ..." = true) :
    (∀ (po : String → Bool) (cfg : StubgenConfig) (st : FSCounters)
        (name : String) (doc : Option String) (module_name : String),
      List.Pairwise (fun a b => str_le a.args b.args = true)
        (function_signatures_from_docstring po cfg st name doc module_name).2 ∧
      (function_signatures_from_docstring po cfg st name doc module_name).2.Nodup) ∧
    (function_signatures_from_docstring parse_ok ⟨false, false, true, false⟩ ⟨0, 0⟩ "f"
        (some "1. f(a: int) -> int\n2. f(a: float) -> float") "" =
      (⟨0, 0⟩, [⟨"f", "a: float", "float"⟩, ⟨"f", "a: int", "int"⟩])) ∧
    (free_function_to_lines [⟨"f", "a: float", "float"⟩, ⟨"f", "a: int", "int"⟩]
        (some "1. f(a: int) -> int\n2. f(a: float) -> float") =
      ["@typing.overload", "def f(a: float) -> float:", "    pass",
       "@typing.overload", "def f(a: int) -> int:", "    pass"]) := by
  refine ⟨?_, ?_, by decide⟩
  · intro po cfg st name doc module_name
    cases doc with
    | none => exact ⟨List.Pairwise.nil, List.nodup_nil⟩
    | some d => exact sorted_nodup_dedup_insertionSort _
  · have ha1 : parse_ok (assemble_def_str "f" "a: int" "int") = true := by
      have he : assemble_def_str "f" "a: int" "int" = "def f(a: int) -> int: ..." := by decide
      rw [he]; exact h1
    have ha2 : parse_ok (assemble_def_str "f" "a: float" "float") = true := by
      have he : assemble_def_str "f" "a: float" "float" = "def f(a: float) -> float: ..." := by decide
      rw [he]; exact h2
    have hd1 : replace_default_pybind11_repr "a: int" = ([], "a: int") := by decide
    have hd2 : replace_default_pybind11_repr "a: float" = ([], "a: float") := by decide
    have e1 : mk_function_signature parse_ok ⟨false, false, true, false⟩ ⟨0, 0⟩
        "f" "a: int" "int" true = (⟨0, 0⟩, ⟨"f", "a: int", "int"⟩) := by
      simp [mk_function_signature, hd1, ha1]
    have e2 : mk_function_signature parse_ok ⟨false, false, true, false⟩ ⟨0, 0⟩
        "f" "a: float" "float" true = (⟨0, 0⟩, ⟨"f", "a: float", "float"⟩) := by
      simp [mk_function_signature, hd2, ha2]
    have hsplit : py_split "1. f(a: int) -> int\n2. f(a: float) -> float" "\n"
        = ["1. f(a: int) -> int", "2. f(a: float) -> float"] := by decide
    have hm1 : match_signature_line "f" "1. f(a: int) -> int" = some ("a: int", "int") := by
      decide
    have hm2 : match_signature_line "f" "2. f(a: float) -> float" = some ("a: float", "float") := by
      decide
    rw [function_signatures_from_docstring, hsplit]
    simp only [List.foldl_cons, List.foldl_nil, hm1, hm2, e1, e2]
    decide

/-- Witness for C5 with the always-accepting validation oracle. -/
theorem c5_signatures_dedup_sorted_witness :
    (∀ (po : String → Bool) (cfg : StubgenConfig) (st : FSCounters)
        (name : String) (doc : Option String) (module_name : String),
      List.Pairwise (fun a b => str_le a.args b.args = true)
        (function_signatures_from_docstring po cfg st name doc module_name).2 ∧
      (function_signatures_from_docstring po cfg st name doc module_name).2.Nodup) ∧
    (function_signatures_from_docstring (fun _ => true) ⟨false, false, true, false⟩ ⟨0, 0⟩ "f"
        (some "1. f(a: int) -> int\n2. f(a: float) -> float") "" =
      (⟨0, 0⟩, [⟨"f", "a: float", "float"⟩, ⟨"f", "a: int", "int"⟩])) ∧
    (free_function_to_lines [⟨"f", "a: float", "float"⟩, ⟨"f", "a: int", "int"⟩]
        (some "1. f(a: int) -> int\n2. f(a: float) -> float") =
      ["@typing.overload", "def f(a: float) -> float:", "    pass",
       "@typing.overload", "def f(a: int) -> int:", "    pass"]) :=
  c5_signatures_dedup_sorted (fun _ => true) rfl rfl

/-- The element left at the outer position by the inner pass is either the
original occupant or one of its strict ancestors. -/
theorem reorder_inner_chain {α : Type} (sub : α → α → Bool)
    (htrans : ∀ x y z, sub x y = true → sub y z = true → sub x z = true) :
    ∀ (l : List α) (cur : α),
      (reorder_inner sub cur l).1 = cur ∨ sub cur (reorder_inner sub cur l).1 = true := by
  intro l
  induction l with
  | nil => intro cur; left; rfl
  | cons b rest ih =>
    intro cur
    simp only [reorder_inner]
    by_cases hsb : sub cur b = true
    · rw [if_pos hsb]
      rcases ih b with h | h
      · right; rw [h]; exact hsb
      · right; exact htrans _ _ _ hsb h
    · rw [if_neg hsb]
      exact ih cur

/-- After the inner pass, the outer occupant is not a strict subclass of
the previous occupant nor of anything left in the tail. -/
theorem reorder_inner_not_desc {α : Type} (sub : α → α → Bool)
    (htrans : ∀ x y z, sub x y = true → sub y z = true → sub x z = true)
    (hasymm : ∀ x y, sub x y = true → sub y x = false) :
    ∀ (l : List α) (cur : α),
      sub (reorder_inner sub cur l).1 cur = false ∧
      ∀ x ∈ (reorder_inner sub cur l).2, sub (reorder_inner sub cur l).1 x = false := by
  have hirr : ∀ x, sub x x = false := by
    intro x
    by_cases hx : sub x x = true
    · exact hasymm x x hx
    · simpa using hx
  intro l
  induction l with
  | nil =>
    intro cur
    exact ⟨hirr cur, by simp [reorder_inner]⟩
  | cons b rest ih =>
    intro cur
    simp only [reorder_inner]
    by_cases hsb : sub cur b = true
    · rw [if_pos hsb]
      obtain ⟨h1, h2⟩ := ih b
      constructor
      · by_cases hpc : sub (reorder_inner sub b rest).1 cur = true
        · exact absurd (htrans _ _ _ hpc hsb) (by simp [h1])
        · simpa using hpc
      · intro x hx
        rcases List.mem_cons.mp hx with rfl | hx2
        · by_cases hpc : sub (reorder_inner sub b rest).1 x = true
          · exact absurd (htrans _ _ _ hpc hsb) (by simp [h1])
          · simpa using hpc
        · exact h2 x hx2
    · rw [if_neg hsb]
      obtain ⟨h1, h2⟩ := ih cur
      refine ⟨h1, ?_⟩
      intro x hx
      rcases List.mem_cons.mp hx with rfl | hx2
      · rcases reorder_inner_chain sub htrans rest cur with hch | hch
        · rw [hch]
          simpa using hsb
        · by_cases hpb : sub (reorder_inner sub cur rest).1 x = true
          · exact absurd (htrans _ _ _ hch hpb) (by simpa using hsb)
          · simpa using hpb
      · exact h2 x hx2

theorem reorder_inner_perm {α : Type} (sub : α → α → Bool) :
    ∀ (l : List α) (cur : α),
      (cur :: l).Perm ((reorder_inner sub cur l).1 :: (reorder_inner sub cur l).2) := by
  intro l
  induction l with
  | nil => intro cur; rfl
  | cons b rest ih =>
    intro cur
    simp only [reorder_inner]
    by_cases hsb : sub cur b = true
    · rw [if_pos hsb]
      exact ((ih b).cons cur).trans (List.Perm.swap _ _ _)
    · rw [if_neg hsb]
      exact (List.Perm.swap _ _ _).trans (((ih cur).cons b).trans (List.Perm.swap _ _ _))

theorem reorder_inner_len {α : Type} (sub : α → α → Bool) :
    ∀ (l : List α) (cur : α), (reorder_inner sub cur l).2.length = l.length := by
  intro l
  induction l with
  | nil => intro cur; rfl
  | cons b rest ih =>
    intro cur
    simp only [reorder_inner]
    by_cases hsb : sub cur b = true
    · rw [if_pos hsb]
      simp [ih b]
    · rw [if_neg hsb]
      simp [ih cur]

theorem reorder_aux_perm {α : Type} (sub : α → α → Bool) :
    ∀ (fuel : Nat) (l : List α), l.length ≤ fuel →
      (reorder_classes_aux sub fuel l).Perm l := by
  intro fuel
  induction fuel with
  | zero =>
    intro l hl
    rw [List.length_eq_zero.mp (Nat.le_zero.mp hl)]
    rfl
  | succ f ih =>
    intro l hl
    cases l with
    | nil => rfl
    | cons a rest =>
      simp only [reorder_classes_aux]
      have hlen : (reorder_inner sub a rest).2.length ≤ f := by
        rw [reorder_inner_len]
        simpa using hl
      exact ((ih _ hlen).cons _).trans (reorder_inner_perm sub rest a).symm

theorem reorder_aux_pairwise {α : Type} (sub : α → α → Bool)
    (htrans : ∀ x y z, sub x y = true → sub y z = true → sub x z = true)
    (hasymm : ∀ x y, sub x y = true → sub y x = false) :
    ∀ (fuel : Nat) (l : List α), l.length ≤ fuel →
      List.Pairwise (fun x y => sub x y = false) (reorder_classes_aux sub fuel l) := by
  intro fuel
  induction fuel with
  | zero =>
    intro l hl
    rw [List.length_eq_zero.mp (Nat.le_zero.mp hl)]
    exact List.Pairwise.nil
  | succ f ih =>
    intro l hl
    cases l with
    | nil => exact List.Pairwise.nil
    | cons a rest =>
      simp only [reorder_classes_aux]
      have hlen : (reorder_inner sub a rest).2.length ≤ f := by
        rw [reorder_inner_len]
        simpa using hl
      refine List.Pairwise.cons ?_ (ih _ hlen)
      intro y hy
      have hy2 : y ∈ (reorder_inner sub a rest).2 :=
        (reorder_aux_perm sub f _ hlen).mem_iff.mp hy
      exact (reorder_inner_not_desc sub htrans hasymm rest a).2 y hy2

/-- Claim C7: after the pairwise reordering pass, no class is a strict
subclass of a class that comes later in the list — equivalently every
emitted strict ancestor precedes all of its emitted descendants, whatever
the discovery order was; the worked two-class example with discovery order
A then B and A deriving from B comes out B then A.  The hypotheses state
that strict subclassing is transitive and asymmetric, which holds of
Python class hierarchies. -/
theorem c7_bases_before_derived {α : Type} (sub : α → α → Bool)
    (htrans : ∀ x y z, sub x y = true → sub y z = true → sub x z = true)
    (hasymm : ∀ x y, sub x y = true → sub y x = false) :
    (∀ l : List α,
      List.Pairwise (fun x y => sub x y = false) (reorder_classes sub l)) ∧
    reorder_classes demo_sub [DemoClass.A, DemoClass.B] =
      [DemoClass.B, DemoClass.A] := by
  refine ⟨?_, by decide⟩
  intro l
  exact reorder_aux_pairwise sub htrans hasymm l.length l le_rfl

/-- Witness for C7 on the concrete two-class hierarchy. -/
theorem c7_bases_before_derived_witness :
    (∀ l : List DemoClass,
      List.Pairwise (fun x y => demo_sub x y = false) (reorder_classes demo_sub l)) ∧
    reorder_classes demo_sub [DemoClass.A, DemoClass.B] =
      [DemoClass.B, DemoClass.A] :=
  c7_bases_before_derived demo_sub (by decide) (by decide)

theorem main_loop_spec (cfg : StubgenConfig) :
    ∀ (roots : List (Nat × Nat)) (st : FSCounters),
      (main_loop cfg st roots).1 =
        (prefix_counters st roots).map (fun c => n_fatal_errors cfg c == 0) ∧
      (main_loop cfg st roots).2 = total_counters st roots := by
  intro roots
  induction roots with
  | nil => intro st; exact ⟨rfl, rfl⟩
  | cons r rs ih =>
    intro st
    simp only [main_loop, prefix_counters, total_counters, List.map_cons, List.foldl_cons]
    exact ⟨by rw [(ih (parse_root st r)).1], (ih (parse_root st r)).2⟩

/-- Claim C2 (amended): the per-root written flags equal the per-prefix
fatal-count checks — a root is written exactly when the fatal count
accumulated through its own parse is still zero, so output generation is
gated mid-loop, not unconditional — while the exit status is evaluated
once from the final counters: the run reports failure exactly when the
end-of-run fatal count is non-zero. -/
theorem c2_fatal_count_evaluation (cfg : StubgenConfig) (roots : List (Nat × Nat)) :
    (main_run cfg roots).1 =
      (prefix_counters ⟨0, 0⟩ roots).map (fun c => n_fatal_errors cfg c == 0) ∧
    ((main_run cfg roots).2.2 = true ↔
      n_fatal_errors cfg (total_counters ⟨0, 0⟩ roots) ≠ 0) := by
  constructor
  · exact (main_loop_spec cfg roots ⟨0, 0⟩).1
  · show (decide _ = true ↔ _)
    rw [(main_loop_spec cfg roots ⟨0, 0⟩).2]
    rw [decide_eq_true_eq]
    omega

/-- Counterexample to C2 as stated: with default tolerances, a first root
whose parse records one invalid signature makes the run skip stub output
for the second root as well (the flags are false, false, not true, true),
even though the second root contributed no diagnostics. -/
theorem c2_counterexample :
    (main_run ⟨false, false, true, false⟩ [(1, 0), (0, 0)]).1 = [false, false] ∧
    (main_run ⟨false, false, true, false⟩ [(1, 0), (0, 0)]).2.2 = true ∧
    [false, false] ≠ [true, true] := by
  refine ⟨by decide, by decide, by decide⟩

/-- Claim C3 (amended): when the assembled candidate declaration fails
validation, the invalid-signature counter is incremented by one; with
downgrade enabled the stored signature becomes the canonical degraded
form; with downgrade disabled the signature keeps its original (invalid)
argument and return text — it is not dropped. -/
theorem c3_invalid_signature_handling (parse_ok : String → Bool)
    (cfg : StubgenConfig) (st : FSCounters) (name args rtype : String)
    (hfail : parse_ok
      (assemble_def_str name (replace_default_pybind11_repr args).2 rtype) = false) :
    (mk_function_signature parse_ok cfg st name args rtype true).1.n_invalid_signatures
      = st.n_invalid_signatures + 1 ∧
    (cfg.signature_downgrade = true →
      (mk_function_signature parse_ok cfg st name args rtype true).2
        = ⟨name, "*args, **kwargs", "typing.Any"⟩) ∧
    (cfg.signature_downgrade = false →
      (mk_function_signature parse_ok cfg st name args rtype true).2
        = ⟨name, (replace_default_pybind11_repr args).2, rtype⟩) := by
  simp only [mk_function_signature, hfail, Bool.false_eq_true, if_false,
    eq_self_iff_true, if_true]
  have hsig : (if (replace_default_pybind11_repr args).1.isEmpty = true then st
      else { n_invalid_signatures := st.n_invalid_signatures,
             n_invalid_default_values := st.n_invalid_default_values + 1 } :
      FSCounters).n_invalid_signatures = st.n_invalid_signatures := by
    split <;> rfl
  refine ⟨?_, ?_, ?_⟩
  · split
    · exact congrArg (· + 1) hsig
    · exact congrArg (· + 1) hsig
  · intro hdg
    rw [if_pos hdg]
  · intro hdg
    rw [if_neg (by simp [hdg])]

/-- Witness for C3 with the always-rejecting oracle and downgrade
disabled. -/
theorem c3_invalid_signature_handling_witness :
    ((fun (_ : String) => false)
      (assemble_def_str "f" (replace_default_pybind11_repr "a b").2 "int") = false) ∧
    ((mk_function_signature (fun _ => false) ⟨false, false, false, false⟩ ⟨0, 0⟩
        "f" "a b" "int" true).1.n_invalid_signatures = (0 : Nat) + 1 ∧
    ((⟨false, false, false, false⟩ : StubgenConfig).signature_downgrade = true →
      (mk_function_signature (fun _ => false) ⟨false, false, false, false⟩ ⟨0, 0⟩
        "f" "a b" "int" true).2 = ⟨"f", "*args, **kwargs", "typing.Any"⟩) ∧
    ((⟨false, false, false, false⟩ : StubgenConfig).signature_downgrade = false →
      (mk_function_signature (fun _ => false) ⟨false, false, false, false⟩ ⟨0, 0⟩
        "f" "a b" "int" true).2 = ⟨"f", (replace_default_pybind11_repr "a b").2, "int"⟩)) :=
  ⟨rfl, c3_invalid_signature_handling (fun _ => false) ⟨false, false, false, false⟩
    ⟨0, 0⟩ "f" "a b" "int" rfl⟩

/-- Counterexample to C3 as stated: with downgrade disabled, the invalid
candidate from the docstring line stays in the member's signature list
with its original text (the counter is still incremented and only a
warning is logged); the claim says it is dropped. -/
theorem c3_counterexample :
    (function_signatures_from_docstring (fun _ => false) ⟨false, false, false, false⟩
        ⟨0, 0⟩ "f" (some "f(a b) -> int") "") =
      ((⟨1, 0⟩ : FSCounters), [(⟨"f", "a b", "int"⟩ : FunctionSignature)]) ∧
    [(⟨"f", "a b", "int"⟩ : FunctionSignature)] ≠ [] := by
  refine ⟨by decide, by decide⟩

/-- Claim C8 (amended): the rewrite fires on the fully qualified spelling
of the array type.  In annotated mode
`numpy.ndarray[float32[3,3]]` becomes
`numpy.ndarray[numpy.float32, _Shape[3,3]]` — the recognized scalar kind
gains the `numpy.` namespace and the shape text is kept verbatim with no
space inserted — and in bare mode every such occurrence collapses to
`numpy.ndarray`; the unqualified spelling `ndarray[...]` of the claim
example is left untouched in both modes. -/
theorem c8_numpy_array_rewrite :
    apply_classname_replacements false "numpy.ndarray[float32[3,3]]"
      = "numpy.ndarray[numpy.float32, _Shape[3,3]]" ∧
    apply_classname_replacements true "numpy.ndarray[float32[3,3]]" = "numpy.ndarray" ∧
    apply_classname_replacements false "numpy.ndarray[MyType[2,2]]"
      = "numpy.ndarray[MyType, _Shape[2,2]]" ∧
    apply_classname_replacements false "numpy.ndarray[int]" = "numpy.ndarray[int]" ∧
    apply_classname_replacements false "ndarray[float32[3,3]]" = "ndarray[float32[3,3]]" ∧
    apply_classname_replacements true "ndarray[float32[3,3]]" = "ndarray[float32[3,3]]" := by
  refine ⟨by decide, by decide, by decide, by decide, by decide, by decide⟩

/-- Counterexample to C8 as stated: on the claim's example input text the
substitution changes nothing in either mode, because the pattern requires
the namespace-qualified spelling; in particular the output is neither the
canonical annotated form nor the bare name. -/
theorem c8_counterexample :
    apply_classname_replacements false "ndarray[float32[3,3]]" = "ndarray[float32[3,3]]" ∧
    apply_classname_replacements true "ndarray[float32[3,3]]" = "ndarray[float32[3,3]]" ∧
    "ndarray[float32[3,3]]" ≠ "ArrayType[float32, Shape[3, 3]]" ∧
    "ndarray[float32[3,3]]" ≠ "ArrayType" := by
  refine ⟨by decide, by decide, by decide, by decide⟩

/-- Claim C9 (amended): a class-member signature is rendered with a
static-method marker exactly when its stripped argument text does not
start with the four characters of the receiver name (so a first parameter
such as selfish is treated as a receiver, against the claim); in the
receiver branch the entire first argument is replaced by the bare
receiver name.  Stated for a single-signature member. -/
theorem c9_static_member_rendering (s : FunctionSignature) (doc : Option String)
    (segs : List String) (hsegs : split_arguments s.args = some segs) :
    class_member_to_lines [s] doc = Except.ok (
      (if py_startswith (py_strip s.args) "self" = false then ["@staticmethod"] else []) ++
      ["def " ++ s.name ++ "(" ++
          (if py_startswith (py_strip s.args) "self" = false then s.args
           else String.intercalate "," ("self" :: segs.drop 1)) ++
        ") -> " ++ s.rtype ++ ": " ++
        (if (sanitize_docstring doc).length ≠ 0 then "" else "...")] ++
      (if (sanitize_docstring doc).length ≠ 0 then [format_docstring (sanitize_docstring doc)]
       else [])) := by
  by_cases hst : py_startswith (py_strip s.args) "self" = true
  · simp [class_member_to_lines, class_member_lines_aux, hsegs, hst, Except.map]
  · simp only [Bool.not_eq_true] at hst
    simp [class_member_to_lines, class_member_lines_aux, hst, Except.map]

/-- Witness for C9 at a conventional receiver signature. -/
theorem c9_static_member_rendering_witness :
    split_arguments "self: Foo, x: int" = some ["self: Foo", " x: int"] ∧
    class_member_to_lines [(⟨"f", "self: Foo, x: int", "int"⟩ : FunctionSignature)] none
      = Except.ok ["def f(self, x: int) -> int: ..."] := by
  refine ⟨by decide, ?_⟩
  have h := c9_static_member_rendering ⟨"f", "self: Foo, x: int", "int"⟩ none
    ["self: Foo", " x: int"] (by decide)
  rw [h]
  rfl

/-- Counterexample to C9 as stated: the first parameter selfish is not
the conventional receiver name, yet no static-method marker is emitted —
the argument text merely starts with the four characters of the receiver
name, and the whole first argument is silently replaced by the bare
receiver. -/
theorem c9_counterexample :
    class_member_to_lines [(⟨"f", "selfish: int", "int"⟩ : FunctionSignature)] none
      = Except.ok ["def f(self) -> int: ..."] ∧
    "@staticmethod" ∉ ["def f(self) -> int: ..."] := by
  refine ⟨rfl, by decide⟩

/-- Claim C1 (code bug): whenever the property has a setter to emit
(`setter_args` differs from the text None), `to_lines` does not return a
getter block followed by a paired setter block: the setter def line is
built by `str.format` from a template that mentions an rtype placeholder
while rtype is passed as a keyword to `list.append` instead of to
`str.format` (source line 596), so `str.format` raises `KeyError` and
`to_lines` raises instead of returning lines. -/
theorem c1_property_setter_crash (field_name : String) (sig : PropertySignature)
    (doc : Option String) (hset : sig.setter_args ≠ "None") :
    property_to_lines field_name sig doc = Except.error "KeyError: rtype" := by
  rw [property_to_lines]
  simp only [hset, if_pos, ne_eq, not_false_iff]

/-- Witness for C1 at the concrete read-write property of the claim. -/
theorem c1_property_setter_crash_witness :
    ("self, arg0: int" : String) ≠ "None" ∧
    property_to_lines "x" ⟨"int", "self, arg0: int", 3⟩ none
      = Except.error "KeyError: rtype" :=
  ⟨by decide,
    c1_property_setter_crash "x" ⟨"int", "self, arg0: int", 3⟩ none (by decide)⟩

end PyStubgen
